import Mathlib

/-!
Verification of the conformance-testing engine of the simple-compiler test
harness (simple_test). The embedding below translates, as shallowly as
possible, the machinery of simple_test/phase_file.py, simple_test/utils.py
and simple_test/subprocess.py that the specification talks about:

* script lines with provenance (class Line),
* the run-script directive model and its per-line parsers
  (RunLine.parse, ExpectedOutputLine, InputLine, ExpectedErrorLine,
  BlankLine, the helpers _parse_int32 and _remove_comment),
* error collection over a whole script (catch_map, RunPhaseFile.load),
* the replay of a directive sequence against a subject process and the
  post-conditions checked after wait() (RunPhaseFile.assert_behavior),
* the timeout discipline of the process handle
  (InteractiveProgram._run_async_timeout).

Text is modelled as List Char so that the Python string operations used by
the source (startswith, lstrip, rstrip, split, slicing, int()) can be given
faithful executable definitions.
-/

namespace SimpleTest

/-- Python strings are modelled as lists of characters. -/
abbrev Str := List Char

/-- The whitespace test used by Python str.strip, str.lstrip, str.rstrip
and int() for the ASCII range: space, tab, newline, carriage return,
vertical tab and form feed. -/
def pyIsSpace (c : Char) : Bool :=
  c = ' ' || c = '\t' || c = '\n' || c = '\x0d' || c = '\x0b' || c = '\x0c'

/-- Model of Python str.lstrip() with no arguments. -/
def lstrip (s : Str) : Str := s.dropWhile pyIsSpace

/-- Model of Python str.rstrip() with no arguments. -/
def rstrip (s : Str) : Str := (s.reverse.dropWhile pyIsSpace).reverse

/-- Model of Python str.strip() with no arguments. -/
def pyStrip (s : Str) : Str := rstrip (lstrip s)

/-- Model of Python str.startswith: the first argument is the candidate
prefix of the second. -/
def pyStartsWith (p s : Str) : Bool := List.isPrefixOf p s

/-- Model of Python str.split(sep) for a single-character separator.
Always returns at least one piece; every occurrence of the separator
starts a new piece. -/
def pySplitOn (sep : Char) : Str → List Str
  | [] => [[]]
  | c :: rest =>
    if c = sep then [] :: pySplitOn sep rest
    else
      match pySplitOn sep rest with
      | [] => [[c]]
      | s :: ss => (c :: s) :: ss

/-- The first piece of a Python split (split always yields one). -/
def pySplitHead (sep : Char) (s : Str) : Str := (pySplitOn sep s).headD []

/-- Model of phase_file._remove_comment: line.split(chr 35)[0].rstrip()
plus a re-appended newline. -/
def removeComment (s : Str) : Str := rstrip (pySplitHead '#' s) ++ ['\n']

/-- ASCII decimal digit test. -/
def isDigit (c : Char) : Bool := '0' ≤ c && c ≤ '9'

/-- An underscore inside a Python integer literal must be directly followed
by a digit. -/
def underscoreOkAfter : Str → Bool
  | [] => false
  | d :: _ => isDigit d

/-- After the first digit of a Python integer literal, the remaining
characters must be digits, with single underscores allowed only between
two digits (the rule of int() since Python 3.6). -/
def digitsTail : Str → Bool
  | [] => true
  | c :: rest =>
    (if c = '_' then underscoreOkAfter rest else isDigit c) && digitsTail rest

/-- A valid unsigned digit run for Python int(): nonempty, starting with a
digit, underscores only between digits. -/
def validDigits : Str → Bool
  | [] => false
  | c :: rest => isDigit c && digitsTail rest

/-- Numeric value of a digit run, ignoring underscores. -/
def digitsVal (s : Str) : Nat :=
  s.foldl (fun acc c => if c = '_' then acc else 10 * acc + (c.toNat - 48)) 0

/-- Sign handling of Python int(): one optional leading plus or minus sign
directly followed by the digit run. -/
def applySign (s : Str) : Option Int :=
  match s with
  | [] => none
  | c :: rest =>
    if c = '+' then
      if validDigits rest then some ((digitsVal rest : Nat) : Int) else none
    else if c = '-' then
      if validDigits rest then some (-((digitsVal rest : Nat) : Int)) else none
    else if validDigits (c :: rest) then some ((digitsVal (c :: rest) : Nat) : Int)
    else none

/-- Model of Python int(string) for ASCII decimal input: surrounding
whitespace is stripped, then an optional sign and a digit run (with
underscores between digits) are accepted; anything else raises ValueError,
modelled as none. -/
def pyInt (s : Str) : Option Int := applySign (pyStrip s)

/-- Little-endian base-10 digit list computed with explicit fuel; the fuel
argument only bounds the recursion depth. -/
def natDigitsAux : Nat → Nat → List Nat
  | 0, _ => []
  | _ + 1, 0 => []
  | fuel + 1, n + 1 => ((n + 1) % 10) :: natDigitsAux fuel ((n + 1) / 10)

/-- Little-endian base-10 digits of a natural number. -/
def natDigits (n : Nat) : List Nat := natDigitsAux n n

/-- Model of Python str(n) for a natural number: most-significant digit
first, a single zero character for 0. -/
def renderNat (n : Nat) : Str :=
  if n = 0 then ['0'] else ((natDigits n).map Nat.digitChar).reverse

/-- Model of Python str(i) (also of the format specifier used by
ExpectedOutputLine.expect) for an integer: minus sign for negatives, no
plus sign, no leading zeros. -/
def renderInt (i : Int) : Str :=
  if i < 0 then '-' :: renderNat i.natAbs else renderNat i.natAbs

/-- Model of class Line from phase_file.py: a string subclass carrying the
originating file path and the line number it was constructed with. The
string operations of Line (split, rstrip, slicing, concatenation) act on
the text and keep path and lineNum unchanged. -/
structure SrcLine where
  text : Str
  path : Str
  lineNum : Nat
deriving DecidableEq, Repr

/-- Replace the text of a Line, keeping its provenance, as every overridden
string operation of class Line does. -/
def SrcLine.withText (l : SrcLine) (t : Str) : SrcLine :=
  { l with text := t }

/-- The reasons _parse_int32 can raise RunLineParseError: the message
starting with the words line must contain a number, and the message
starting with the words number must be an int32. -/
inductive ParseMsg
  | notANumber
  | notInt32
deriving DecidableEq, Repr

/-- Model of RunLineParseError: the human-readable reason together with the
offending Line (whose path and lineNum give the context). -/
structure ParseErr where
  msg : ParseMsg
  line : SrcLine
deriving DecidableEq, Repr

/-- The prefix that marks an input line in a run script. -/
def inputMark : Str := ['>', ' ']

/-- The prefix that marks an expected-error line in a run script and that an
actual stderr line must start with. -/
def errorMark : Str := ['e', 'r', 'r', 'o', 'r', ':', ' ']

/-- Model of _parse_int32: strip the comment, drop the trailing newline that
_remove_comment appended, run int() on the remainder, and require the
result to fit a signed 32-bit integer. int() failing is the parse error
about containing a number; the range check failing is the int32 error. -/
def parseInt32 (l : SrcLine) : Except ParseErr Int :=
  match pyInt ((removeComment l.text).dropLast) with
  | none => .error ⟨.notANumber, l⟩
  | some v =>
    if -(2 ^ 31) ≤ v ∧ v ≤ 2 ^ 31 - 1 then .ok v
    else .error ⟨.notInt32, l⟩

/-- The closed directive model: ExpectedOutputLine, InputLine,
ExpectedErrorLine and BlankLine, each carrying the payload its Python
constructor stores. -/
inductive RunDirective
  | expectOutput (value : Int) (line : SrcLine)
  | sendInput (payload : SrcLine) (phaseLine : SrcLine)
  | expectError (description : SrcLine)
  | blank (line : SrcLine)
deriving DecidableEq, Repr

/-- Model of RunLine.parse, the dispatch over the four line shapes, with
InputLine.parse, ExpectedErrorLine.parse, BlankLine.parse and
ExpectedOutputLine.parse inlined at their call sites.  InputLine.parse
stores _remove_comment(line[2:]) as the payload next to the full phase
line; only the ExpectedOutputLine branch can fail. -/
def parseRunLine (l : SrcLine) : Except ParseErr RunDirective :=
  if pyStartsWith inputMark l.text then
    .ok (.sendInput (l.withText (removeComment (l.text.drop 2))) l)
  else if pyStartsWith errorMark l.text then
    .ok (.expectError l)
  else if lstrip l.text = [] || pyStartsWith ['#'] (lstrip l.text) then
    .ok (.blank l)
  else
    match parseInt32 l with
    | .ok v => .ok (.expectOutput v l)
    | .error e => .error e

/-- The four line shapes of the script format, used to compare the
dispatch order of RunLine.parse against the wording of the specification. -/
inductive LineKind
  | input
  | expectError
  | blank
  | output
deriving DecidableEq, Repr

/-- Modelled from the spec: the dispatch rule of section 4.2 as worded
there, with the blank test phrased over the fully stripped line (rule 3
says blank after stripping, or starts with a hash after stripping leading
whitespace). Used only as the comparator for the dispatch-order claim. -/
def classifySpec (s : Str) : LineKind :=
  if pyStartsWith inputMark s then .input
  else if pyStartsWith errorMark s then .expectError
  else if pyStrip s = [] || pyStartsWith ['#'] (pyStrip s) then .blank
  else .output

/-- The line shape a parse outcome belongs to; a parse error can only come
out of the ExpectedOutputLine branch. -/
def parsedKind : Except ParseErr RunDirective → LineKind
  | .ok (.sendInput _ _) => .input
  | .ok (.expectError _) => .expectError
  | .ok (.blank _) => .blank
  | .ok (.expectOutput _ _) => .output
  | .error _ => .output

/-- The error of a fallible outcome, if any. -/
def errToOption {ε β : Type} : Except ε β → Option ε
  | .ok _ => none
  | .error e => some e

/-- Model of the loop of utils.catch_map: apply f to every element, splitting
the outcomes into the results list and the exceptions list, both in input
order. -/
def collectResults (f : α → Except ε β) : List α → List β × List ε
  | [] => ([], [])
  | x :: xs =>
    let rest := collectResults f xs
    match f x with
    | .ok r => (r :: rest.1, rest.2)
    | .error e => (rest.1, e :: rest.2)

/-- Model of utils.catch_map: map f over every item even after exceptions;
raise the aggregate of all exceptions if there was any, otherwise return
all results. -/
def catchMap (f : α → Except ε β) (xs : List α) : Except (List ε) (List β) :=
  if (collectResults f xs).2.isEmpty then .ok (collectResults f xs).1
  else .error (collectResults f xs).2

/-- Model of the line construction in RunPhaseFile.load: the raw lines of
the file (as produced by splitlines keeping the line endings) are paired
with their enumerate index, which starts at zero. -/
def mkLines (path : Str) (raws : List Str) : List SrcLine :=
  raws.enum.map (fun p => ⟨p.2, path, p.1⟩)

/-- Model of RunPhaseFile.load: build the provenance-carrying lines and
parse them all under catch_map, so that parse errors aggregate. -/
def loadRun (path : Str) (raws : List Str) :
    Except (List ParseErr) (List RunDirective) :=
  catchMap parseRunLine (mkLines path raws)

/-- Model of the RunPhaseFile._has_error property: some directive is an
ExpectedErrorLine. -/
def hasExpectedError (ds : List RunDirective) : Bool :=
  ds.any fun d => match d with
    | .expectError _ => true
    | _ => false

/-!
Replay model. For the claims about RunPhaseFile.assert_behavior the subject
process is modelled deterministically and without timeouts: a queue of
pending stdout lines, a queue of pending stderr lines, a sink for lines
written to stdin, and the exit code. read_line and read_error_line pop the
head of the matching queue and return the empty string at end of stream,
as StreamReader.readline does; wait (process.communicate) returns whatever
is still buffered on both queues, concatenated. Timeout behaviour is
modelled separately below on the handle itself.
-/

/-- Deterministic model of the subject process driven by assert_behavior. -/
structure ProcState where
  stdoutPending : List Str
  stderrPending : List Str
  stdinWritten : List Str
  exitCode : Int
deriving DecidableEq, Repr

/-- Pop one line from pending stdout; the empty string at end of stream. -/
def readLineP (p : ProcState) : Str × ProcState :=
  match p.stdoutPending with
  | [] => ([], p)
  | l :: rest => (l, { p with stdoutPending := rest })

/-- Pop one line from pending stderr; the empty string at end of stream. -/
def readErrorLineP (p : ProcState) : Str × ProcState :=
  match p.stderrPending with
  | [] => ([], p)
  | l :: rest => (l, { p with stderrPending := rest })

/-- Record a line written to the stdin of the subject. -/
def writeLineP (p : ProcState) (l : Str) : ProcState :=
  { p with stdinWritten := p.stdinWritten ++ [l] }

/-- Model of CompletedProgram: captured remaining stdout and stderr and the
exit code (the equivalent command string is irrelevant to the claims). -/
structure CompletedProgram where
  stdout : Str
  stderr : Str
  returncode : Int
deriving DecidableEq, Repr

/-- Model of InteractiveProgram.wait in the deterministic setting:
process.communicate returns everything still buffered. -/
def waitP (p : ProcState) : CompletedProgram :=
  ⟨(p.stdoutPending).flatten, (p.stderrPending).flatten, p.exitCode⟩

/-- The RunLineAssertionError raised by a failed directive self-check,
carrying the message kind and the expected/actual line lists the Python
exception stores. -/
structure ExpectFailure where
  unexpectedStderr : Bool
  expectedLines : List Str
  actualLines : List Str
deriving DecidableEq, Repr

/-- Model of the expect methods of the four directive classes against the
deterministic process (the timeout branches cannot fire here):
ExpectedOutputLine compares the next stdout line against the canonical
rendering of its number; ExpectedErrorLine only demands the error prefix
on the next stderr line; InputLine writes its payload; BlankLine is a
no-op. -/
def expectDirective (d : RunDirective) (p : ProcState) :
    Except ExpectFailure ProcState :=
  match d with
  | .expectOutput v line =>
    let r := readLineP p
    if r.1 = renderInt v ++ ['\n'] then .ok r.2
    else .error ⟨false, [line.text], [r.1]⟩
  | .expectError desc =>
    let r := readErrorLineP p
    if pyStartsWith errorMark r.1 then .ok r.2
    else .error ⟨true, [desc.text], [r.1]⟩
  | .sendInput payload _ => .ok (writeLineP p payload.text)
  | .blank _ => .ok p

/-- The loop of assert_behavior: run each directive in order, stopping at
the first RunLineAssertionError (fail-fast). -/
def replay (ds : List RunDirective) (p : ProcState) :
    Except ExpectFailure ProcState :=
  match ds with
  | [] => .ok p
  | d :: rest =>
    match expectDirective d p with
    | .ok p' => replay rest p'
    | .error e => .error e

/-- The ways assert_behavior can end: all assertions pass, a directive
self-check fails (test_case.fail inside the except-block), or one of the
post-wait checks fails. -/
inductive RunOutcome
  | pass
  | directiveFailure (e : ExpectFailure)
  | extraStdout
  | zeroReturncodeWithError
  | extraStderr
  | nonzeroReturncode
deriving DecidableEq, Repr

/-- The verdict of assert_behavior together with whether program.wait()
was invoked on the handle before the verdict was surfaced. -/
structure RunReport where
  outcome : RunOutcome
  waitCalled : Bool
deriving DecidableEq, Repr

/-- Model of RunPhaseFile.assert_behavior. On a RunLineAssertionError the
except-branch renders a diff and calls test_case.fail, which raises
AssertionError and is re-raised from None, so control never reaches
program.wait(): the report carries waitCalled = false. When every
directive succeeds, wait() runs and the post-conditions are checked in
source order: remaining stdout must be empty; then, with an expected
error, the returncode must be non-zero; without one, remaining stderr
must be empty and the returncode must be zero. -/
def assertBehavior (ds : List RunDirective) (p : ProcState) : RunReport :=
  match replay ds p with
  | .error e => ⟨.directiveFailure e, false⟩
  | .ok p' =>
    let completed := waitP p'
    if completed.stdout ≠ [] then ⟨.extraStdout, true⟩
    else if hasExpectedError ds then
      if completed.returncode = 0 then ⟨.zeroReturncodeWithError, true⟩
      else ⟨.pass, true⟩
    else if completed.stderr ≠ [] then ⟨.extraStderr, true⟩
    else if completed.returncode ≠ 0 then ⟨.nonzeroReturncode, true⟩
    else ⟨.pass, true⟩

/-!
Timeout model of the process handle. The asynchronous outcome of each
blocking operation (whether the awaited coroutine finished before
asyncio.wait_for expired) is an oracle parameter of type Timed; the
wrapper _run_async_timeout is then a pure state transformer on the
view the handle keeps of the process.
-/

/-- Whether the awaited operation completed in time or asyncio.wait_for
raised TimeoutError. -/
inductive Timed (α : Type)
  | ok (a : α)
  | timedOut
deriving DecidableEq, Repr

/-- The lifecycle of the process behind a handle. -/
inductive ProcPhase
  | running
  | finished
deriving DecidableEq, Repr

/-- The view the handle keeps of its process: the lifecycle phase and whether a
kill signal has been sent. -/
structure HandleState where
  phase : ProcPhase
  killSent : Bool
deriving DecidableEq, Repr

/-- Model of process.kill(): send the kill signal (idempotent). -/
def killH (h : HandleState) : HandleState := { h with killSent := true }

/-- Model of loop.run_until_complete(process.communicate()) with no
timeout wrapper: block until the process has exited and reap it. -/
def reapH (h : HandleState) : HandleState := { h with phase := .finished }

/-- The error propagated out of a timed-out operation. -/
inductive OpError
  | timeout
deriving DecidableEq, Repr

/-- Model of InteractiveProgram._run_async_timeout: run the awaitable
under the configured timeout; on TimeoutError, kill the process, then
wait for it to actually die (communicate with no timeout), then re-raise
the original TimeoutError. -/
def runAsyncTimeout (h : HandleState) (r : Timed α) :
    Except OpError α × HandleState :=
  match r with
  | .ok a => (.ok a, h)
  | .timedOut => (.error .timeout, reapH (killH h))

/-- Model of InteractiveProgram.write_line: the bytes are written and the
drain is awaited through _run_async_timeout. The Python method asserts the
line ends in a newline before doing anything; that precondition holds for
every InputLine payload (see the comment-stripping theorem) and is not
part of the state transformation. -/
def writeLineH (h : HandleState) (_line : Str) (drain : Timed Unit) :
    Except OpError Unit × HandleState :=
  runAsyncTimeout h drain

/-- Model of InteractiveProgram.read_line: stdout.readline() awaited
through _run_async_timeout. -/
def readLineH (h : HandleState) (r : Timed Str) :
    Except OpError Str × HandleState :=
  runAsyncTimeout h r

/-- Model of InteractiveProgram.read_error_line: stderr.readline() awaited
through _run_async_timeout. -/
def readErrorLineH (h : HandleState) (r : Timed Str) :
    Except OpError Str × HandleState :=
  runAsyncTimeout h r

/-- Model of InteractiveProgram.wait: process.communicate() awaited
through _run_async_timeout. -/
def waitH (h : HandleState) (r : Timed CompletedProgram) :
    Except OpError CompletedProgram × HandleState :=
  runAsyncTimeout h r

/-! General lemmas about the string model. -/

theorem dropWhile_head_false {α : Type} {p : α → Bool} :
    ∀ {l c t}, List.dropWhile p l = c :: t → p c = false := by
  intro l
  induction l with
  | nil => intro c t h; simp [List.dropWhile] at h
  | cons a l ih =>
    intro c t h
    rw [List.dropWhile_cons] at h
    by_cases ha : p a
    · exact ih (by simpa [ha] using h)
    · obtain ⟨rfl, -⟩ := by simpa [ha] using h
      simpa using ha

theorem dropWhile_append_singleton {α : Type} {p : α → Bool} {c : α}
    (h : p c = false) : ∀ l : List α,
    List.dropWhile p (l ++ [c]) = List.dropWhile p l ++ [c] := by
  intro l
  induction l with
  | nil => simp [List.dropWhile, h]
  | cons a l ih =>
    by_cases ha : p a
    · simp [List.dropWhile_cons, ha, ih]
    · simp [List.dropWhile_cons, ha]

theorem dropWhile_append_of_all {α : Type} {p : α → Bool} :
    ∀ {l : List α}, (∀ c ∈ l, p c = true) → ∀ l' : List α,
    List.dropWhile p (l ++ l') = List.dropWhile p l' := by
  intro l
  induction l with
  | nil => intro _ l'; simp
  | cons a l ih =>
    intro h l'
    have ha : p a = true := h a (by simp)
    simpa [List.dropWhile_cons, ha] using ih (fun c hc => h c (by simp [hc])) l'

theorem takeWhile_append_of_all {α : Type} {p : α → Bool} :
    ∀ {l : List α}, (∀ c ∈ l, p c = true) → ∀ l' : List α,
    List.takeWhile p (l ++ l') = l ++ List.takeWhile p l' := by
  intro l
  induction l with
  | nil => intro _ l'; simp
  | cons a l ih =>
    intro h l'
    have ha : p a = true := h a (by simp)
    simpa [List.takeWhile_cons, ha] using ih (fun c hc => h c (by simp [hc])) l'

theorem takeWhile_eq_self_of_all {α : Type} {p : α → Bool} {l : List α}
    (h : ∀ c ∈ l, p c = true) : List.takeWhile p l = l := by
  simpa using takeWhile_append_of_all h []

theorem lstrip_cons_of_not_space {c : Char} {t : Str}
    (h : pyIsSpace c = false) : lstrip (c :: t) = c :: t := by
  simp [lstrip, List.dropWhile_cons, h]

theorem lstrip_of_all_not_space {s : Str}
    (h : ∀ c ∈ s, pyIsSpace c = false) : lstrip s = s := by
  cases s with
  | nil => rfl
  | cons c t => exact lstrip_cons_of_not_space (h c (by simp))

theorem rstrip_cons_of_not_space {c : Char} (h : pyIsSpace c = false)
    (t : Str) : rstrip (c :: t) = c :: rstrip t := by
  simp [rstrip, dropWhile_append_singleton h]

theorem rstrip_of_all_not_space {s : Str}
    (h : ∀ c ∈ s, pyIsSpace c = false) : rstrip s = s := by
  induction s with
  | nil => rfl
  | cons c t ih =>
    rw [rstrip_cons_of_not_space (h c (by simp)),
        ih (fun c hc => h c (by simp [hc]))]

theorem rstrip_append_spaces {ws : Str}
    (h : ∀ c ∈ ws, pyIsSpace c = true) (s : Str) :
    rstrip (s ++ ws) = rstrip s := by
  simp only [rstrip, List.reverse_append]
  rw [dropWhile_append_of_all (fun c hc => h c (by simpa using hc))]

theorem pyStrip_eq_nil_iff {s : Str} : pyStrip s = [] ↔ lstrip s = [] := by
  constructor
  · intro h
    cases hl : lstrip s with
    | nil => rfl
    | cons c t =>
      have hc : pyIsSpace c = false := dropWhile_head_false hl
      rw [pyStrip, hl, rstrip_cons_of_not_space hc] at h
      exact absurd h (by simp)
  · intro h
    simp [pyStrip, h, rstrip]

theorem pyStrip_hash_iff {s : Str} :
    pyStartsWith ['#'] (pyStrip s) = pyStartsWith ['#'] (lstrip s) := by
  cases hl : lstrip s with
  | nil => simp [pyStrip, hl, rstrip, pyStartsWith, List.isPrefixOf]
  | cons c t =>
    have hc : pyIsSpace c = false := dropWhile_head_false hl
    rw [pyStrip, hl, rstrip_cons_of_not_space hc]
    simp [pyStartsWith, List.isPrefixOf]

theorem pySplitOn_ne_nil (sep : Char) : ∀ s : Str, pySplitOn sep s ≠ [] := by
  intro s
  induction s with
  | nil => simp [pySplitOn]
  | cons c rest ih =>
    rw [pySplitOn]
    by_cases hc : c = sep
    · simp [hc]
    · simp only [hc, if_false]
      cases hsp : pySplitOn sep rest with
      | nil => exact absurd hsp ih
      | cons s ss => simp

theorem pySplitHead_eq_takeWhile (sep : Char) : ∀ s : Str,
    pySplitHead sep s = s.takeWhile (fun c => !(c == sep)) := by
  intro s
  induction s with
  | nil => rfl
  | cons c rest ih =>
    rw [pySplitHead, pySplitOn]
    by_cases hc : c = sep
    · simp [hc, List.takeWhile_cons]
    · simp only [hc, if_false]
      cases hsp : pySplitOn sep rest with
      | nil => exact absurd hsp (pySplitOn_ne_nil sep rest)
      | cons s ss =>
        have : s = pySplitHead sep rest := by simp [pySplitHead, hsp]
        simp [List.takeWhile_cons, hc, this.symm, this ▸ ih]

/-! Lemmas about decimal digits and the rendering round trip. -/

theorem natDigitsAux_eq : ∀ (fuel n : Nat), n ≤ fuel →
    natDigitsAux fuel n = Nat.digits 10 n := by
  intro fuel
  induction fuel with
  | zero =>
    intro n hn
    obtain rfl : n = 0 := Nat.le_zero.mp hn
    simp [natDigitsAux]
  | succ f ih =>
    intro n hn
    cases n with
    | zero => simp [natDigitsAux]
    | succ m =>
      rw [natDigitsAux, Nat.digits_def' (by norm_num : (1 : ℕ) < 10)
            (Nat.succ_pos m)]
      congr 1
      exact ih _ (Nat.lt_succ_iff.mp
        (Nat.lt_of_lt_of_le (Nat.div_lt_self (Nat.succ_pos m) (by norm_num)) hn))

theorem natDigits_eq (n : Nat) : natDigits n = Nat.digits 10 n :=
  natDigitsAux_eq n n le_rfl

theorem natDigits_lt {n d : Nat} (h : d ∈ natDigits n) : d < 10 :=
  Nat.digits_lt_base (by norm_num) (natDigits_eq n ▸ h)

theorem digitChar_isDigit {d : Nat} (h : d < 10) :
    isDigit (Nat.digitChar d) = true := by
  interval_cases d <;> decide

theorem digitChar_toNat {d : Nat} (h : d < 10) :
    (Nat.digitChar d).toNat - 48 = d := by
  interval_cases d <;> decide

theorem isDigit_ne_char {c x : Char} (h : isDigit c = true)
    (hx : isDigit x = false) : ¬ c = x := by
  intro he
  rw [he, hx] at h
  exact Bool.noConfusion h

theorem isDigit_not_space {c : Char} (h : isDigit c = true) :
    pyIsSpace c = false := by
  cases hsp : pyIsSpace c with
  | false => rfl
  | true =>
    simp only [pyIsSpace, Bool.or_eq_true, decide_eq_true_eq] at hsp
    rcases hsp with ((((rfl | rfl) | rfl) | rfl) | rfl) | rfl <;>
      exact absurd h (by decide)

theorem renderNat_all_digits (n : Nat) :
    ∀ c ∈ renderNat n, isDigit c = true := by
  intro c hc
  rw [renderNat] at hc
  by_cases h : n = 0
  · simp [h] at hc
    subst hc
    decide
  · simp only [h, if_false, List.mem_reverse, List.mem_map] at hc
    obtain ⟨d, hd, rfl⟩ := hc
    exact digitChar_isDigit (natDigits_lt hd)

theorem renderNat_ne_nil (n : Nat) : renderNat n ≠ [] := by
  rw [renderNat]
  by_cases h : n = 0
  · simp [h]
  · simp only [h, if_false]
    intro hnil
    have : natDigits n = [] := by
      have := congrArg List.length hnil
      simpa using this
    rw [natDigits_eq] at this
    exact h (Nat.digits_eq_nil_iff_eq_zero.mp this)

theorem digitsTail_of_all_digits : ∀ {s : Str},
    (∀ c ∈ s, isDigit c = true) → digitsTail s = true := by
  intro s
  induction s with
  | nil => intro _; rfl
  | cons c t ih =>
    intro h
    have hc : isDigit c = true := h c (List.mem_cons_self c t)
    have ht : digitsTail t = true :=
      ih (fun x hx => h x (List.mem_cons_of_mem _ hx))
    rw [digitsTail, if_neg (isDigit_ne_char hc (by decide))]
    simp [hc, ht]

theorem validDigits_of_all_digits {s : Str} (hne : s ≠ [])
    (h : ∀ c ∈ s, isDigit c = true) : validDigits s = true := by
  cases s with
  | nil => exact absurd rfl hne
  | cons c t =>
    have ht : digitsTail t = true :=
      digitsTail_of_all_digits (fun x hx => h x (List.mem_cons_of_mem _ hx))
    rw [validDigits]
    simp [h c (List.mem_cons_self c t), ht]

theorem foldl_mul_add (D : List Nat) : ∀ acc : Nat,
    D.foldl (fun a d => 10 * a + d) acc =
      acc * 10 ^ D.length + Nat.ofDigits 10 D.reverse := by
  induction D with
  | nil => intro acc; simp [Nat.ofDigits]
  | cons d D ih =>
    intro acc
    rw [List.foldl_cons, ih, List.reverse_cons, Nat.ofDigits_append]
    simp [Nat.ofDigits_singleton, List.length_reverse, pow_succ]
    ring

theorem digitsVal_map_digitChar (D : List Nat) (hD : ∀ d ∈ D, d < 10) :
    digitsVal (D.map Nat.digitChar) =
      D.foldl (fun a d => 10 * a + d) 0 := by
  suffices h : ∀ acc : Nat,
      (D.map Nat.digitChar).foldl
        (fun acc c => if c = '_' then acc else 10 * acc + (c.toNat - 48)) acc =
      D.foldl (fun a d => 10 * a + d) acc by
    exact h 0
  induction D with
  | nil => intro acc; rfl
  | cons d D ih =>
    intro acc
    have hd : d < 10 := hD d (by simp)
    have hne : ¬ Nat.digitChar d = '_' :=
      isDigit_ne_char (digitChar_isDigit hd) (by decide)
    rw [List.map_cons, List.foldl_cons, List.foldl_cons, if_neg hne,
        digitChar_toNat hd]
    exact ih (fun d hmem => hD d (by simp [hmem])) _

theorem digitsVal_renderNat (n : Nat) : digitsVal (renderNat n) = n := by
  by_cases h : n = 0
  · subst h; decide
  · rw [renderNat]
    simp only [h, if_false]
    rw [← List.map_reverse,
        digitsVal_map_digitChar _ (fun d hd => natDigits_lt (by simpa using hd)),
        foldl_mul_add]
    simp [natDigits_eq, Nat.ofDigits_digits]

theorem validDigits_renderNat (n : Nat) : validDigits (renderNat n) = true :=
  validDigits_of_all_digits (renderNat_ne_nil n) (renderNat_all_digits n)

theorem applySign_renderNat (n : Nat) :
    applySign (renderNat n) = some ((n : Nat) : Int) := by
  cases hr : renderNat n with
  | nil => exact absurd hr (renderNat_ne_nil n)
  | cons c t =>
    have hc : isDigit c = true :=
      renderNat_all_digits n c (hr ▸ List.mem_cons_self c t)
    rw [applySign, if_neg (isDigit_ne_char hc (by decide)),
        if_neg (isDigit_ne_char hc (by decide)),
        if_pos (hr ▸ validDigits_renderNat n), ← hr, digitsVal_renderNat]

theorem renderInt_all (i : Int) :
    ∀ c ∈ renderInt i, isDigit c = true ∨ c = '-' := by
  intro c hc
  rw [renderInt] at hc
  by_cases h : i < 0
  · simp only [h, if_true, List.mem_cons] at hc
    rcases hc with rfl | hc
    · right; rfl
    · left; exact renderNat_all_digits _ c hc
  · simp only [h, if_false] at hc
    left; exact renderNat_all_digits _ c hc

theorem renderInt_not_space (i : Int) :
    ∀ c ∈ renderInt i, pyIsSpace c = false := by
  intro c hc
  rcases renderInt_all i c hc with hd | rfl
  · exact isDigit_not_space hd
  · decide

theorem pyStrip_renderInt (i : Int) : pyStrip (renderInt i) = renderInt i := by
  rw [pyStrip, lstrip_of_all_not_space (renderInt_not_space i),
      rstrip_of_all_not_space (renderInt_not_space i)]

theorem pyInt_renderInt (i : Int) : pyInt (renderInt i) = some i := by
  rw [pyInt, pyStrip_renderInt, renderInt]
  by_cases h : i < 0
  · simp only [h, if_true]
    rw [applySign, if_neg (by decide : ¬ '-' = '+'), if_pos rfl,
        if_pos (validDigits_renderNat _), digitsVal_renderNat]
    simp only [Option.some.injEq]
    omega
  · simp only [h, if_false]
    rw [applySign_renderNat]
    simp only [Option.some.injEq]
    omega

/-! Lemmas about comment stripping and number parsing on rendered lines. -/

theorem space_not_hash {c : Char} (h : pyIsSpace c = true) :
    (!(c == '#')) = true := by
  simp only [pyIsSpace, Bool.or_eq_true, decide_eq_true_eq] at h
  rcases h with ((((rfl | rfl) | rfl) | rfl) | rfl) | rfl <;> decide

theorem renderInt_not_hash (i : Int) :
    ∀ c ∈ renderInt i, (!(c == '#')) = true := by
  intro c hc
  rcases renderInt_all i c hc with hd | rfl
  · simpa using isDigit_ne_char hd (by decide)
  · decide

theorem removeComment_rendered_comment (i : Int) (ws rest : Str)
    (hws : ∀ c ∈ ws, pyIsSpace c = true) :
    removeComment (renderInt i ++ (ws ++ '#' :: rest)) =
      renderInt i ++ ['\n'] := by
  rw [removeComment, pySplitHead_eq_takeWhile,
      takeWhile_append_of_all (renderInt_not_hash i),
      takeWhile_append_of_all (fun c hc => space_not_hash (hws c hc)),
      List.takeWhile_cons_of_neg (by decide), List.append_nil,
      rstrip_append_spaces hws, rstrip_of_all_not_space (renderInt_not_space i)]

theorem removeComment_rendered_bare (i : Int) :
    removeComment (renderInt i ++ ['\n']) = renderInt i ++ ['\n'] := by
  rw [removeComment, pySplitHead_eq_takeWhile,
      takeWhile_append_of_all (renderInt_not_hash i),
      List.takeWhile_cons_of_pos (by decide), List.takeWhile_nil,
      rstrip_append_spaces (by intro c hc; simp at hc; subst hc; rfl),
      rstrip_of_all_not_space (renderInt_not_space i)]

theorem parseInt32_of_removeComment {i : Int} {l : SrcLine}
    (h : removeComment l.text = renderInt i ++ ['\n'])
    (hlo : -(2 ^ 31) ≤ i) (hhi : i ≤ 2 ^ 31 - 1) : parseInt32 l = .ok i := by
  rw [parseInt32, h, List.dropLast_concat, pyInt_renderInt]
  exact if_pos ⟨hlo, hhi⟩

theorem goodHead_ne {c x : Char} (hc : isDigit c = true ∨ c = '-')
    (hx : isDigit x = false) (hx' : ¬ ('-' : Char) = x) : ¬ c = x := by
  rcases hc with hd | rfl
  · exact isDigit_ne_char hd hx
  · exact hx'

theorem beq_head_false (x : Char) {c : Char}
    (hc : isDigit c = true ∨ c = '-') (hx : isDigit x = false)
    (hx' : ¬ ('-' : Char) = x) : (x == c) = false := by
  have hne : ¬ c = x := goodHead_ne hc hx hx'
  simp only [beq_eq_false_iff_ne, ne_eq]
  exact fun he => hne he.symm

theorem parseRunLine_output_branch {l : SrcLine} {c : Char} {rest : Str}
    (ht : l.text = c :: rest) (hc : isDigit c = true ∨ c = '-') :
    parseRunLine l =
      match parseInt32 l with
      | .ok v => .ok (.expectOutput v l)
      | .error e => .error e := by
  have hsp : pyIsSpace c = false := by
    rcases hc with hd | rfl
    · exact isDigit_not_space hd
    · rfl
  have h1 : pyStartsWith inputMark l.text = false := by
    rw [ht]
    simp [pyStartsWith, inputMark, List.isPrefixOf,
          beq_head_false '>' hc (by decide) (by decide)]
  have h2 : pyStartsWith errorMark l.text = false := by
    rw [ht]
    simp [pyStartsWith, errorMark, List.isPrefixOf,
          beq_head_false 'e' hc (by decide) (by decide)]
  have h3 : lstrip l.text = c :: rest := by
    rw [ht]; exact lstrip_cons_of_not_space hsp
  have h4 : pyStartsWith ['#'] (c :: rest) = false := by
    simp [pyStartsWith, List.isPrefixOf,
          beq_head_false '#' hc (by decide) (by decide)]
  rw [parseRunLine]
  simp [h1, h2, h3, h4]

theorem renderInt_ne_nil (i : Int) : renderInt i ≠ [] := by
  rw [renderInt]
  by_cases h : i < 0
  · simp [h]
  · simp [h, renderNat_ne_nil]

/-! The claim theorems. -/

/-- C4: RunLine.parse classifies a raw script line by checking, in this
order: a prefix of greater-than-space makes a SendInput; else the error
prefix makes an ExpectError; else a line blank after stripping, or whose
stripped content starts with a hash, makes a Blank; any other line is
parsed as ExpectOutput. The right-hand side is the wording of the
specification itself (classifySpec, phrased over the fully stripped line); the theorem
shows that the dispatch of the source (which left-strips only) agrees with it on
every line. -/
theorem c4_dispatch_order (l : SrcLine) :
    parsedKind (parseRunLine l) = classifySpec l.text := by
  rw [parseRunLine, classifySpec]
  by_cases h1 : pyStartsWith inputMark l.text = true
  · simp [h1, parsedKind]
  · simp only [h1, if_false, Bool.not_eq_true] at h1 ⊢
    simp only [h1, Bool.false_eq_true, if_false]
    by_cases h2 : pyStartsWith errorMark l.text = true
    · simp [h2, parsedKind]
    · simp only [h2, Bool.not_eq_true] at h2 ⊢
      simp only [h2, Bool.false_eq_true, if_false]
      have hcond : (decide (pyStrip l.text = []) ||
          pyStartsWith ['#'] (pyStrip l.text)) =
          (decide (lstrip l.text = []) ||
          pyStartsWith ['#'] (lstrip l.text)) := by
        rw [decide_eq_decide.mpr pyStrip_eq_nil_iff, pyStrip_hash_iff]
      by_cases h3 : (decide (lstrip l.text = []) ||
          pyStartsWith ['#'] (lstrip l.text)) = true
      · simp [hcond, h3, parsedKind]
      · simp only [Bool.not_eq_true] at h3
        simp only [hcond, h3, Bool.false_eq_true, if_false]
        cases hp : parseInt32 l <;> simp [parsedKind]

/-- C5: every integer n in the signed 32-bit range, rendered canonically
and terminated by a newline, with or without a trailing hash comment
(preceded by optional whitespace), parses to ExpectOutput n; the literals
just outside the range fail at parse time with the int32 range error, and
a non-numeric remainder fails at parse time with the
must-contain-a-number error. The failures are values of the parse
function itself, so they arise when the script is loaded, not when it is
replayed. -/
theorem c5_int32_parsing (n : Int) (p : Str) (k : Nat) (ws cmt : Str)
    (hlo : -(2 ^ 31) ≤ n) (hhi : n ≤ 2 ^ 31 - 1)
    (hws : ∀ c ∈ ws, pyIsSpace c = true) :
    parseRunLine ⟨renderInt n ++ ['\n'], p, k⟩ =
      .ok (.expectOutput n ⟨renderInt n ++ ['\n'], p, k⟩) ∧
    parseRunLine ⟨renderInt n ++ (ws ++ '#' :: (cmt ++ ['\n'])), p, k⟩ =
      .ok (.expectOutput n ⟨renderInt n ++ (ws ++ '#' :: (cmt ++ ['\n'])), p, k⟩) ∧
    parseRunLine ⟨['2', '1', '4', '7', '4', '8', '3', '6', '4', '8', '\n'], [], 0⟩ =
      .error ⟨.notInt32, ⟨['2', '1', '4', '7', '4', '8', '3', '6', '4', '8', '\n'], [], 0⟩⟩ ∧
    parseRunLine ⟨['-', '2', '1', '4', '7', '4', '8', '3', '6', '4', '9', '\n'], [], 0⟩ =
      .error ⟨.notInt32, ⟨['-', '2', '1', '4', '7', '4', '8', '3', '6', '4', '9', '\n'], [], 0⟩⟩ ∧
    parseRunLine ⟨['a', 'b', 'c', '\n'], [], 0⟩ =
      .error ⟨.notANumber, ⟨['a', 'b', 'c', '\n'], [], 0⟩⟩ := by
  obtain ⟨c, t, hct⟩ : ∃ c t, renderInt n = c :: t := by
    cases hrn : renderInt n with
    | nil => exact absurd hrn (renderInt_ne_nil n)
    | cons c t => exact ⟨c, t, rfl⟩
  have hc : isDigit c = true ∨ c = '-' :=
    renderInt_all n c (hct ▸ List.mem_cons_self c t)
  refine ⟨?_, ?_, by rfl, by rfl, by rfl⟩
  · rw [parseRunLine_output_branch
      (show (⟨renderInt n ++ ['\n'], p, k⟩ : SrcLine).text = c :: (t ++ ['\n'])
        from by rw [show (⟨renderInt n ++ ['\n'], p, k⟩ : SrcLine).text =
          renderInt n ++ ['\n'] from rfl, hct]; rfl) hc,
      parseInt32_of_removeComment (removeComment_rendered_bare n) hlo hhi]
  · rw [parseRunLine_output_branch
      (show (⟨renderInt n ++ (ws ++ '#' :: (cmt ++ ['\n'])), p, k⟩ : SrcLine).text =
          c :: (t ++ (ws ++ '#' :: (cmt ++ ['\n'])))
        from by rw [show (⟨renderInt n ++ (ws ++ '#' :: (cmt ++ ['\n'])), p, k⟩ : SrcLine).text =
          renderInt n ++ (ws ++ '#' :: (cmt ++ ['\n'])) from rfl, hct]; rfl) hc,
      parseInt32_of_removeComment
        (removeComment_rendered_comment n ws (cmt ++ ['\n']) hws) hlo hhi]

/-- Witness for C5 at n = 3, ws a single space, cmt a single character. -/
theorem c5_int32_parsing_witness :
    (-(2 ^ 31) ≤ (3 : Int)) ∧ ((3 : Int) ≤ 2 ^ 31 - 1) ∧
    parseRunLine ⟨renderInt 3 ++ ['\n'], ['f'], 4⟩ =
      .ok (.expectOutput 3 ⟨renderInt 3 ++ ['\n'], ['f'], 4⟩) ∧
    parseRunLine ⟨renderInt 3 ++ ([' '] ++ '#' :: (['c'] ++ ['\n'])), ['f'], 4⟩ =
      .ok (.expectOutput 3 ⟨renderInt 3 ++ ([' '] ++ '#' :: (['c'] ++ ['\n'])), ['f'], 4⟩) := by
  have h := c5_int32_parsing 3 ['f'] 4 [' '] ['c'] (by decide) (by decide)
    (by intro c hc; simp at hc; subst hc; rfl)
  exact ⟨by decide, by decide, h.1, h.2.1⟩

/-- C8: for every line parsed as SendInput, the stored payload is the
script line after the two-character input prefix with the comment suffix
stripped: everything from the first hash onward is removed (the format
has no escape syntax, so every hash starts a comment), trailing
whitespace before it is trimmed, and a newline is re-appended; hence the
payload is always newline-terminated. The phase line stored next to the
payload is the original line. -/
theorem c8_comment_stripping (l pl ph : SrcLine)
    (h : parseRunLine l = .ok (.sendInput pl ph)) :
    pl.text =
      rstrip (List.takeWhile (fun c => !(c == '#')) (l.text.drop 2)) ++ ['\n'] ∧
    pl.text.getLast? = some '\n' ∧
    pl.text = removeComment (l.text.drop 2) ∧
    ph = l ∧ pl.path = l.path ∧ pl.lineNum = l.lineNum := by
  rw [parseRunLine] at h
  by_cases h1 : pyStartsWith inputMark l.text = true
  · simp only [h1, if_true, Except.ok.injEq] at h
    obtain ⟨hpl, hph⟩ := RunDirective.sendInput.inj h
    have hpt : pl.text = removeComment (l.text.drop 2) := by
      simp [← hpl, SrcLine.withText]
    refine ⟨?_, ?_, hpt, hph.symm, by simp [← hpl, SrcLine.withText],
      by simp [← hpl, SrcLine.withText]⟩
    · rw [hpt, removeComment, pySplitHead_eq_takeWhile]
    · rw [hpt, removeComment, List.getLast?_concat]
  · simp only [h1, Bool.false_eq_true, if_false] at h
    by_cases h2 : pyStartsWith errorMark l.text = true
    · simp [h2] at h
    · simp only [h2, Bool.false_eq_true, if_false] at h
      by_cases h3 : (decide (lstrip l.text = []) ||
          pyStartsWith ['#'] (lstrip l.text)) = true
      · simp [h3] at h
      · simp only [h3, Bool.false_eq_true, if_false] at h
        cases hp : parseInt32 l <;> simp [hp] at h

/-- Witness for C8 at a concrete input line with a comment. -/
theorem c8_comment_stripping_witness :
    parseRunLine ⟨['>', ' ', '1', ' ', '#', 'c', '\n'], ['f'], 2⟩ =
      .ok (.sendInput ⟨['1', '\n'], ['f'], 2⟩ ⟨['>', ' ', '1', ' ', '#', 'c', '\n'], ['f'], 2⟩) ∧
    (['1', '\n'] : Str) =
      rstrip (List.takeWhile (fun c => !(c == '#'))
        ((['>', ' ', '1', ' ', '#', 'c', '\n'] : Str).drop 2)) ++ ['\n'] ∧
    (['1', '\n'] : Str).getLast? = some '\n' := by
  have hparse : parseRunLine ⟨['>', ' ', '1', ' ', '#', 'c', '\n'], ['f'], 2⟩ =
      .ok (.sendInput ⟨['1', '\n'], ['f'], 2⟩
        ⟨['>', ' ', '1', ' ', '#', 'c', '\n'], ['f'], 2⟩) := by rfl
  have h := c8_comment_stripping _ _ _ hparse
  exact ⟨hparse, h.1, h.2.1⟩

/-- C9: an ExpectError directive succeeds exactly when the next stderr
line starts with the error prefix; the remainder of the stderr line is
never compared against the text of the script, so two ExpectError directives
with different script text succeed on exactly the same processes. -/
theorem c9_error_prefix_only (d1 d2 : SrcLine) (p : ProcState) :
    (expectDirective (.expectError d1) p = .ok (readErrorLineP p).2 ↔
      pyStartsWith errorMark (readErrorLineP p).1 = true) ∧
    ((∃ p', expectDirective (.expectError d1) p = .ok p') ↔
      (∃ p', expectDirective (.expectError d2) p = .ok p')) := by
  by_cases h : pyStartsWith errorMark (readErrorLineP p).1 = true
  · constructor
    · simp [expectDirective, h]
    · constructor <;> (intro; exact ⟨(readErrorLineP p).2, by simp [expectDirective, h]⟩)
  · constructor
    · simp [expectDirective, h]
    · constructor <;> (rintro ⟨p', hp'⟩; simp [expectDirective, h] at hp')

/-- C10: an ExpectOutput directive compares the next stdout line against
the canonical decimal rendering of its parsed value followed by a
newline, not against the literal text of the script: the lines 007 and +5
parse to the values 7 and 5, a subject printing the canonical 7 or 5
passes, and a subject echoing the literal script text fails. -/
theorem c10_canonical_rendering :
    (∀ (v : Int) (line : SrcLine) (p : ProcState),
      (∃ p', expectDirective (.expectOutput v line) p = .ok p') ↔
        (readLineP p).1 = renderInt v ++ ['\n']) ∧
    parseRunLine ⟨['0', '0', '7', '\n'], [], 0⟩ =
      .ok (.expectOutput 7 ⟨['0', '0', '7', '\n'], [], 0⟩) ∧
    parseRunLine ⟨['+', '5', '\n'], [], 0⟩ =
      .ok (.expectOutput 5 ⟨['+', '5', '\n'], [], 0⟩) ∧
    expectDirective (.expectOutput 7 ⟨['0', '0', '7', '\n'], [], 0⟩)
        ⟨[['0', '0', '7', '\n']], [], [], 0⟩ =
      .error ⟨false, [['0', '0', '7', '\n']], [['0', '0', '7', '\n']]⟩ ∧
    expectDirective (.expectOutput 7 ⟨['0', '0', '7', '\n'], [], 0⟩)
        ⟨[['7', '\n']], [], [], 0⟩ = .ok ⟨[], [], [], 0⟩ ∧
    expectDirective (.expectOutput 5 ⟨['+', '5', '\n'], [], 0⟩)
        ⟨[['+', '5', '\n']], [], [], 0⟩ =
      .error ⟨false, [['+', '5', '\n']], [['+', '5', '\n']]⟩ ∧
    expectDirective (.expectOutput 5 ⟨['+', '5', '\n'], [], 0⟩)
        ⟨[['5', '\n']], [], [], 0⟩ = .ok ⟨[], [], [], 0⟩ := by
  refine ⟨?_, by rfl, by rfl, by rfl, by rfl, by rfl, by rfl⟩
  intro v line p
  by_cases h : (readLineP p).1 = renderInt v ++ ['\n']
  · exact ⟨fun _ => h, fun _ => ⟨(readLineP p).2, by simp [expectDirective, h]⟩⟩
  · constructor
    · rintro ⟨p', hp'⟩
      simp [expectDirective, h] at hp'
    · intro hcontra
      exact absurd hcontra h

theorem collectResults_errors {α β ε : Type} (f : α → Except ε β) :
    ∀ xs : List α, (collectResults f xs).2 =
      xs.filterMap (fun x => errToOption (f x)) := by
  intro xs
  induction xs with
  | nil => rfl
  | cons x xs ih =>
    cases hf : f x <;>
      simp [collectResults, errToOption, hf, ih, List.filterMap_cons]

theorem parseInt32_error_line {l : SrcLine} {e : ParseErr}
    (h : parseInt32 l = .error e) : e.line = l := by
  rw [parseInt32] at h
  cases hpy : pyInt ((removeComment l.text).dropLast) with
  | none => simp [hpy] at h; rw [← h]
  | some v =>
    simp only [hpy] at h
    by_cases hr : -(2 ^ 31) ≤ v ∧ v ≤ 2 ^ 31 - 1
    · rw [if_pos hr] at h; exact absurd h (by simp)
    · rw [if_neg hr] at h
      simp only [Except.error.injEq] at h
      rw [← h]

theorem parseRunLine_error_line {l : SrcLine} {e : ParseErr}
    (h : parseRunLine l = .error e) : e.line = l := by
  rw [parseRunLine] at h
  by_cases h1 : pyStartsWith inputMark l.text = true
  · simp [h1] at h
  · simp only [h1, Bool.false_eq_true, if_false] at h
    by_cases h2 : pyStartsWith errorMark l.text = true
    · simp [h2] at h
    · simp only [h2, Bool.false_eq_true, if_false] at h
      by_cases h3 : (decide (lstrip l.text = []) ||
          pyStartsWith ['#'] (lstrip l.text)) = true
      · simp [h3] at h
      · simp only [h3, Bool.false_eq_true, if_false] at h
        cases hp : parseInt32 l with
        | ok v => simp [hp] at h
        | error e' =>
          simp only [hp, Except.error.injEq] at h
          rw [← h]
          exact parseInt32_error_line hp

/-- C6: when a script contains malformed lines, loading it fails with the
aggregate of the parse errors of every line, in order, rather than stopping at
the first one; each collected error carries the offending line, so its
file path, its (enumerate-based) line number and its text are those of
the raw line it came from. -/
theorem c6_parse_errors_collected (path : Str) (raws : List Str)
    (es : List ParseErr) (h : loadRun path raws = .error es) :
    es = (mkLines path raws).filterMap (fun l => errToOption (parseRunLine l)) ∧
    es ≠ [] ∧
    (∀ l ∈ mkLines path raws, ∀ e, parseRunLine l = .error e → e ∈ es) ∧
    (∀ e ∈ es, e.line.path = path ∧ e.line.lineNum < raws.length ∧
      raws.getD e.line.lineNum [] = e.line.text) := by
  rw [loadRun, catchMap] at h
  by_cases he : ((collectResults parseRunLine (mkLines path raws)).2).isEmpty = true
  · rw [if_pos he] at h; exact absurd h (by simp)
  · rw [if_neg he] at h
    simp only [Except.error.injEq] at h
    subst h
    rw [collectResults_errors]
    refine ⟨rfl, ?_, ?_, ?_⟩
    · intro hnil
      rw [collectResults_errors] at he
      exact he (by rw [hnil]; rfl)
    · intro l hl e hle
      exact List.mem_filterMap.mpr ⟨l, hl, by rw [hle]; rfl⟩
    · intro e he'
      obtain ⟨l, hl, hfe⟩ := List.mem_filterMap.mp he'
      have hperr : parseRunLine l = .error e := by
        cases hp : parseRunLine l with
        | ok v => rw [hp] at hfe; exact absurd hfe (by simp [errToOption])
        | error e' =>
          rw [hp] at hfe
          simp only [errToOption, Option.some.injEq] at hfe
          rw [hfe]
      have hline : e.line = l := parseRunLine_error_line hperr
      obtain ⟨⟨i, txt⟩, hmem, heq⟩ := List.mem_map.mp hl
      have hget : raws[i]? = some txt := List.mem_enum_iff_getElem?.mp hmem
      obtain ⟨hlen, -⟩ := List.getElem?_eq_some.mp hget
      have hl2 : l = ⟨txt, path, i⟩ := heq.symm
      rw [hline, hl2]
      refine ⟨rfl, hlen, ?_⟩
      rw [List.getD_eq_getElem?_getD, hget]
      rfl

/-- Witness for C6 on a script with two malformed lines: both errors are
reported together. -/
theorem c6_parse_errors_collected_witness :
    loadRun ['f'] [['a', '\n'], ['5', '\n'], ['2', '1', '4', '7', '4', '8', '3', '6', '4', '8', '\n']] =
      .error [⟨.notANumber, ⟨['a', '\n'], ['f'], 0⟩⟩,
              ⟨.notInt32, ⟨['2', '1', '4', '7', '4', '8', '3', '6', '4', '8', '\n'], ['f'], 2⟩⟩] ∧
    [⟨.notANumber, ⟨['a', '\n'], ['f'], 0⟩⟩,
     (⟨.notInt32, ⟨['2', '1', '4', '7', '4', '8', '3', '6', '4', '8', '\n'], ['f'], 2⟩⟩ : ParseErr)] ≠ [] ∧
    (∀ e ∈ [⟨.notANumber, ⟨['a', '\n'], ['f'], 0⟩⟩,
            (⟨.notInt32, ⟨['2', '1', '4', '7', '4', '8', '3', '6', '4', '8', '\n'], ['f'], 2⟩⟩ : ParseErr)],
      e.line.path = ['f'] ∧ e.line.lineNum < 3) := by
  have hload : loadRun ['f'] [['a', '\n'], ['5', '\n'], ['2', '1', '4', '7', '4', '8', '3', '6', '4', '8', '\n']] =
      .error [⟨.notANumber, ⟨['a', '\n'], ['f'], 0⟩⟩,
              ⟨.notInt32, ⟨['2', '1', '4', '7', '4', '8', '3', '6', '4', '8', '\n'], ['f'], 2⟩⟩] := by rfl
  have h := c6_parse_errors_collected _ _ _ hload
  refine ⟨hload, h.2.1, ?_⟩
  intro e he
  exact ⟨(h.2.2.2 e he).1, (h.2.2.2 e he).2.1⟩

/-- C7 counterexample: the Lines built when a two-line script file is read
carry the enumerate indices 0 and 1, so the first physical line of the
file has line number 0, not 1 as the claim states. -/
theorem c7_counterexample :
    (mkLines ['f'] [['a', '\n'], ['b', '\n']]).map SrcLine.lineNum = [0, 1] ∧
    (0 : Nat) ≠ 1 := ⟨by rfl, by decide⟩

/-- C7 amended: every SourceLine produced when a script file is read
carries a 0-based line number: the i-th physical line (counting from 0)
yields the Line with text equal to that raw line, the path of the file, and
line number i. -/
theorem c7_line_numbers_zero_based (path : Str) (raws : List Str) (i : Nat)
    (hi : i < raws.length) :
    (mkLines path raws).getD i ⟨[], [], 0⟩ = ⟨raws.getD i [], path, i⟩ := by
  simp [mkLines, List.getD_eq_getElem?_getD, List.getElem?_enum,
        List.getElem?_eq_getElem hi]

/-- Witness for C7 amended at a concrete two-line file. -/
theorem c7_line_numbers_zero_based_witness :
    (1 < ([['a', '\n'], ['b', '\n']] : List Str).length) ∧
    (mkLines ['f'] [['a', '\n'], ['b', '\n']]).getD 1 ⟨[], [], 0⟩ =
      ⟨([['a', '\n'], ['b', '\n']] : List Str).getD 1 [], ['f'], 1⟩ :=
  ⟨by decide, c7_line_numbers_zero_based ['f'] [['a', '\n'], ['b', '\n']] 1 (by decide)⟩

theorem assertBehavior_ok_waitCalled {ds : List RunDirective}
    {p p' : ProcState} (hr : replay ds p = .ok p') :
    (assertBehavior ds p).waitCalled = true := by
  rw [assertBehavior, hr]
  by_cases h1 : (waitP p').stdout ≠ []
  · simp [h1]
  · simp only [h1, if_false]
    by_cases h2 : hasExpectedError ds = true
    · simp only [h2, if_true]
      by_cases h3 : (waitP p').returncode = 0 <;> simp [h3]
    · simp only [h2, Bool.false_eq_true, if_false]
      by_cases h4 : (waitP p').stderr ≠ []
      · simp [h4]
      · simp only [h4, if_false]
        by_cases h5 : (waitP p').returncode ≠ 0 <;> simp [h5]

/-- C1 counterexample: replaying the script consisting of the single
ExpectOutput directive 5 against a subject that wrote the line 6 to
stdout and exited 0 fails with the unexpected-stdout assertion, and
wait() is never invoked on the process handle: in assert_behavior the
except-branch calls test_case.fail, whose AssertionError is re-raised
and propagates before the wait() call is reached. This refutes the claim
that the runner still calls wait() before surfacing the failure. -/
theorem c1_counterexample :
    assertBehavior [.expectOutput 5 ⟨['5', '\n'], [], 0⟩]
        ⟨[['6', '\n']], [], [], 0⟩ =
      ⟨.directiveFailure ⟨false, [['5', '\n']], [['6', '\n']]⟩, false⟩ ∧
    (assertBehavior [.expectOutput 5 ⟨['5', '\n'], [], 0⟩]
        ⟨[['6', '\n']], [], [], 0⟩).waitCalled = false := ⟨by rfl, by rfl⟩

/-- C1 amended: wait() is called on the process handle exactly when the
self-checks of all directives succeed; on a directive self-check failure the
failure is surfaced immediately and wait() is not called. -/
theorem c1_wait_iff_directives_succeed (ds : List RunDirective)
    (p : ProcState) :
    (assertBehavior ds p).waitCalled = true ↔
      ∃ p', replay ds p = .ok p' := by
  constructor
  · intro hw
    cases hr : replay ds p with
    | ok p' => exact ⟨p', rfl⟩
    | error e =>
      rw [assertBehavior, hr] at hw
      exact absurd hw (by simp)
  · rintro ⟨p', hr⟩
    exact assertBehavior_ok_waitCalled hr

/-- C2: each of the four blocking operations of the process handle
(write_line, read_line, read_error_line, wait) routes through
_run_async_timeout; when the awaited operation times out, the handle
kills the process, blocks with no timeout until the process is reaped,
and re-raises the original TimeoutError, so no caller returns from a
timeout while the process is still alive. -/
theorem c2_timeout_kills_then_reaps (h : HandleState) (line : Str)
    (dr : Timed Unit) (rr er : Timed Str) (wr : Timed CompletedProgram) :
    (dr = .timedOut →
      writeLineH h line dr = (.error .timeout, ⟨.finished, true⟩)) ∧
    (rr = .timedOut →
      readLineH h rr = (.error .timeout, ⟨.finished, true⟩)) ∧
    (er = .timedOut →
      readErrorLineH h er = (.error .timeout, ⟨.finished, true⟩)) ∧
    (wr = .timedOut →
      waitH h wr = (.error .timeout, ⟨.finished, true⟩)) := by
  refine ⟨?_, ?_, ?_, ?_⟩ <;> (rintro rfl; rfl)

/-- Witness for C2: all four operations, timed out on a running handle. -/
theorem c2_timeout_kills_then_reaps_witness :
    writeLineH ⟨.running, false⟩ ['x', '\n'] .timedOut =
      (.error .timeout, ⟨.finished, true⟩) ∧
    readLineH ⟨.running, false⟩ .timedOut =
      (.error .timeout, ⟨.finished, true⟩) ∧
    readErrorLineH ⟨.running, false⟩ .timedOut =
      (.error .timeout, ⟨.finished, true⟩) ∧
    waitH ⟨.running, false⟩ .timedOut =
      (.error .timeout, ⟨.finished, true⟩) := by
  have h := c2_timeout_kills_then_reaps ⟨.running, false⟩ ['x', '\n']
    .timedOut .timedOut .timedOut .timedOut
  exact ⟨h.1 rfl, h.2.1 rfl, h.2.2.1 rfl, h.2.2.2 rfl⟩

/-- C3: when every directive succeeds (and the deterministic wait
completes), the run passes exactly when the remaining captured stdout is
empty and, if the script contains an ExpectError directive, the exit
code is non-zero (remaining stderr unconstrained), or, if it contains
none, the exit code is zero and the remaining stderr is empty. -/
theorem c3_pass_postconditions (ds : List RunDirective) (p p' : ProcState)
    (h : replay ds p = .ok p') :
    (assertBehavior ds p).outcome = .pass ↔
      ((waitP p').stdout = [] ∧
        (if hasExpectedError ds = true then (waitP p').returncode ≠ 0
         else (waitP p').returncode = 0 ∧ (waitP p').stderr = [])) := by
  rw [assertBehavior, h]
  by_cases h1 : (waitP p').stdout = []
  · simp only [h1, ne_eq, not_true_eq_false, if_false]
    by_cases h2 : hasExpectedError ds = true
    · simp only [h2, if_true]
      by_cases h3 : (waitP p').returncode = 0 <;> simp [h3]
    · simp only [h2, Bool.false_eq_true, if_false]
      by_cases h4 : (waitP p').stderr = []
      · simp only [h4, ne_eq, not_true_eq_false, if_false]
        by_cases h5 : (waitP p').returncode = 0 <;> simp [h5]
      · simp [h4]
  · simp [h1]

/-- Witness for C3 on the empty script against an exited clean subject. -/
theorem c3_pass_postconditions_witness :
    replay [] ⟨[], [], [], 0⟩ = .ok ⟨[], [], [], 0⟩ ∧
    ((assertBehavior [] ⟨[], [], [], 0⟩).outcome = .pass ↔
      ((waitP ⟨[], [], [], 0⟩).stdout = [] ∧
        (if hasExpectedError [] = true then
          (waitP ⟨[], [], [], 0⟩).returncode ≠ 0
         else (waitP ⟨[], [], [], 0⟩).returncode = 0 ∧
          (waitP ⟨[], [], [], 0⟩).stderr = []))) :=
  ⟨rfl, c3_pass_postconditions [] ⟨[], [], [], 0⟩ ⟨[], [], [], 0⟩ rfl⟩

end SimpleTest
